import Mathlib

/-!
Verification development for the obsidian-highlight-non-ascii plugin
(`src/main.ts`).  Text is modelled as a list of UTF-16 code units
(`List Nat`); JavaScript's string iterator (`Array.from`), which groups a
well-formed surrogate pair into one element and passes every other unit
through as a single element, is modelled by `decode`.  An iterator element
("char") is represented by its code point value, which determines both its
UTF-16 length and its unit sequence.
-/

namespace HNA

/-- A UTF-16 code unit is a high surrogate (0xD800-0xDBFF). -/
def isHighSurrogate (u : Nat) : Bool :=
  decide (0xD800 ≤ u) && decide (u ≤ 0xDBFF)

/-- A UTF-16 code unit is a low surrogate (0xDC00-0xDFFF). -/
def isLowSurrogate (u : Nat) : Bool :=
  decide (0xDC00 ≤ u) && decide (u ≤ 0xDFFF)

/-- Combine a high and a low surrogate into the code point they encode. -/
def combineSurrogates (u v : Nat) : Nat :=
  0x10000 + (u - 0xD800) * 0x400 + (v - 0xDC00)

/-- JavaScript string iteration (`Array.from(text)`, `for...of`): a high
surrogate followed by a low surrogate yields one code point ≥ 0x10000; any
other unit (ASCII, BMP, or a lone surrogate) yields itself as one code
point. -/
def decode : List Nat → List Nat
  | [] => []
  | [u] => [u]
  | u :: v :: rest =>
    if isHighSurrogate u && isLowSurrogate v then
      combineSurrogates u v :: decode rest
    else
      u :: decode (v :: rest)

/-- `ch.length` of an iterator element: 2 UTF-16 units for a code point
outside the BMP, 1 otherwise (lone surrogates included). -/
def cpLen (c : Nat) : Nat :=
  if 0x10000 ≤ c then 2 else 1

/-- The UTF-16 unit sequence of an iterator element with code point `c`. -/
def encodeCp (c : Nat) : List Nat :=
  if 0x10000 ≤ c then
    [0xD800 + (c - 0x10000) / 0x400, 0xDC00 + (c - 0x10000) % 0x400]
  else
    [c]

/-- UTF-16 unit sequence of a list of code points. -/
def encodeCps (cs : List Nat) : List Nat :=
  (cs.map encodeCp).flatten

/-- `code > 0x7f && !allowedSet.has(ch)` (main.ts lines 155-159): a char is
flagged iff its code point exceeds 0x7F and it is not allowlisted.
Allowlist membership is string equality, i.e. code point equality. -/
def flagged (allowedSet : List Nat) (c : Nat) : Bool :=
  decide (0x7F < c) && !(allowedSet.contains c)

/-- `doc.sliceString(a, b)` / `text.slice(a)` on the unit level. -/
def sliceStr (t : List Nat) (a b : Nat) : List Nat :=
  (t.drop a).take (b - a)

/-- The inner peek-ahead loop of `buildDecorations` (main.ts lines
164-175): extend `runEnd` by the UTF-16 length of each flagged char of
`remaining`, stopping at the first non-flagged char. -/
def extendRun (allowedSet : List Nat) : List Nat → Nat → Nat
  | [], runEnd => runEnd
  | c :: rest, runEnd =>
    if flagged allowedSet c then extendRun allowedSet rest (runEnd + cpLen c)
    else runEnd

/-- The outer `for (const ch of Array.from(text))` loop of
`buildDecorations` (main.ts lines 151-191).  `t` is the unit list of the
sliced range text, `chars` the iterator elements still to be visited, `i`
the unit index into `t` and `pos` the absolute document offset.  On a
flagged char the run end is computed from `Array.from(text.slice(i +
charLen))`, a mark is emitted, and `i`, `pos` jump to the run end — but,
exactly as in the source, `continue` does not skip the iterator elements
inside the run. -/
def scanLoop (allowedSet : List Nat) (t : List Nat) :
    List Nat → Nat → Nat → List (Nat × Nat)
  | [], _, _ => []
  | c :: cs, i, pos =>
    if flagged allowedSet c then
      let charLen := cpLen c
      let remaining := decode (t.drop (i + charLen))
      let runEnd := extendRun allowedSet remaining (pos + charLen)
      (pos, runEnd) :: scanLoop allowedSet t cs (i + (runEnd - pos)) runEnd
    else
      scanLoop allowedSet t cs (i + cpLen c) (pos + cpLen c)

/-- One visible range of `buildDecorations`: scan the sliced text `t`,
with `pos` starting at the range's `from` offset `a`. -/
def scanRange (allowedSet : List Nat) (t : List Nat) (a : Nat) :
    List (Nat × Nat) :=
  scanLoop allowedSet t (decode t) 0 a

/-- `buildDecorations` (main.ts lines 138-195): empty when highlighting is
disabled or suppressed by frontmatter; otherwise the ranges emitted by the
scan of each visible range `(a, b)` of the document, in order. -/
def buildDecorations (enabled fmDisabled : Bool) (allowedSet : List Nat)
    (doc : List Nat) (ranges : List (Nat × Nat)) : List (Nat × Nat) :=
  if !enabled || fmDisabled then []
  else
    (ranges.map (fun r => scanRange allowedSet (sliceStr doc r.1 r.2) r.1)).flatten

/-- `buildAllowedSet` whitespace test: `ch.trim() === ""` holds for a
one-code-point string iff the code point is ECMAScript whitespace
(WhiteSpace or LineTerminator). -/
def jsWhitespace (c : Nat) : Bool :=
  [0x9, 0xA, 0xB, 0xC, 0xD, 0x20, 0xA0, 0x1680,
   0x2000, 0x2001, 0x2002, 0x2003, 0x2004, 0x2005, 0x2006, 0x2007,
   0x2008, 0x2009, 0x200A, 0x2028, 0x2029, 0x202F, 0x205F, 0x3000,
   0xFEFF].contains c

/-- `buildAllowedSet` (main.ts lines 55-62): iterate the raw configuration
string by code point; skip a char when it trims to empty unless it is
U+00A0; insert every other char into a set (deduplicated, membership by
string equality). -/
def buildAllowedSet (allowedChars : List Nat) : List Nat :=
  ((decode allowedChars).filter
    (fun c => !(jsWhitespace c && !(c == 0xA0)))).dedup

/-- A child of the wrapper span built by `highlightNonAsciiInReading`: the
flag says whether the buffer was flushed as a `non-ascii-highlight` span
(`true`) or as a plain text fragment (`false`); the list holds the code
points of the buffered text. -/
abbrev Seg := Bool × List Nat

/-- The buffered loop of `highlightNonAsciiInReading` (main.ts lines
229-262): walk the chars, flushing the buffer whenever the
flagged/unflagged state flips, and once more at the end. -/
def segLoop (allowedSet : List Nat) : List Nat → Bool → List Nat → List Seg
  | [], inH, buf => if buf.isEmpty then [] else [(inH, buf)]
  | c :: cs, inH, buf =>
    if flagged allowedSet c then
      if inH then segLoop allowedSet cs true (buf ++ [c])
      else
        (if buf.isEmpty then [] else [(inH, buf)]) ++
          segLoop allowedSet cs true [c]
    else
      if inH then
        (if buf.isEmpty then [] else [(inH, buf)]) ++
          segLoop allowedSet cs false [c]
      else segLoop allowedSet cs false (buf ++ [c])

/-- Wrapper contents produced for one text node's chars: the loop starts
with `inHighlight = false` and an empty buffer. -/
def readingSegments (allowedSet : List Nat) (cs : List Nat) : List Seg :=
  segLoop allowedSet cs false []

/-- Result of the reading-view post processor on one text node: either the
node is left untouched or it is replaced by a wrapper of segments. -/
inductive NodeOut where
  | keep (t : List Nat)
  | replaced (segs : List Seg)
deriving DecidableEq

/-- One text node of `highlightNonAsciiInReading` (main.ts lines 216-267):
a node is collected and replaced iff its text content matches
`/[^\x00-\x7F]/`, i.e. contains a UTF-16 unit above 0x7F (an empty text
content is falsy and also not collected). -/
def processNode (allowedSet : List Nat) (t : List Nat) : NodeOut :=
  if t.any (fun u => decide (0x7F < u)) then
    NodeOut.replaced (readingSegments allowedSet (decode t))
  else NodeOut.keep t

/-- Total text content of a node after processing: unchanged for a kept
node; for a replaced node, the concatenation in order of the text of every
plain fragment and highlighted sub-span. -/
def nodeText : NodeOut → List Nat
  | NodeOut.keep t => t
  | NodeOut.replaced segs => encodeCps ((segs.map Prod.snd).flatten)

/-- The segments of a processed node (a kept node has none). -/
def segsOf : NodeOut → List Seg
  | NodeOut.keep _ => []
  | NodeOut.replaced segs => segs

/-- The run decomposition carried by the segments of a replaced node: the
half-open UTF-16 ranges of the highlighted sub-spans. -/
def segRuns : List Seg → Nat → List (Nat × Nat)
  | [], _ => []
  | (hl, cs) :: rest, pos =>
    let len := (cs.map cpLen).sum
    if hl then (pos, pos + len) :: segRuns rest (pos + len)
    else segRuns rest (pos + len)

/-- The valid code point boundaries of a char list starting at offset
`pos`: the offsets before each char, and the end offset. -/
def cpBoundaries : List Nat → Nat → List Nat
  | [], pos => [pos]
  | c :: cs, pos => pos :: cpBoundaries cs (pos + cpLen c)

/-- A loosely-typed frontmatter metadata value, as JavaScript sees it. -/
inductive JsValue where
  | undef
  | null
  | boolean (b : Bool)
  | string (s : String)
  | number (n : Int)
deriving DecidableEq

/-- `isFileDisabledByFrontmatter` (main.ts lines 447-452), value level:
`value === false || value === "false"`. -/
def isFileDisabledByFrontmatter : JsValue → Bool
  | JsValue.boolean false => true
  | JsValue.string s => s == "false"
  | _ => false

/-- Effective-enabled: the global flag AND NOT the per-document
suppression (main.ts lines 139-141 and 404-414). -/
def effectiveEnabled (globalEnabled : Bool) (v : JsValue) : Bool :=
  globalEnabled && !(isFileDisabledByFrontmatter v)

/-- The reading-view post processor registered in `onload` (main.ts lines
404-414): return with the tree unchanged when the global flag is off or
the file's frontmatter disables highlighting; otherwise build the allowed
set from the configuration string and process every text node. -/
def postProcess (enabled : Bool) (fmValue : JsValue) (allowedChars : List Nat)
    (nodes : List (List Nat)) : List NodeOut :=
  if !enabled then nodes.map NodeOut.keep
  else if isFileDisabledByFrontmatter fmValue then nodes.map NodeOut.keep
  else nodes.map (processNode (buildAllowedSet allowedChars))

/-- Helper for the annotator proofs: UTF-16 units of the combined code
point of a well-formed surrogate pair re-encode to the original pair. -/
theorem encodeCp_combine (u v : Nat) (hu : isHighSurrogate u = true)
    (hv : isLowSurrogate v = true) :
    encodeCp (combineSurrogates u v) = [u, v] := by
  simp only [isHighSurrogate, isLowSurrogate, Bool.and_eq_true,
    decide_eq_true_eq] at hu hv
  simp only [encodeCp, combineSurrogates]
  rw [if_pos (by omega)]
  have e1 : 0xD800 +
      (0x10000 + (u - 0xD800) * 0x400 + (v - 0xDC00) - 0x10000) / 0x400 = u := by
    omega
  have e2 : 0xDC00 +
      (0x10000 + (u - 0xD800) * 0x400 + (v - 0xDC00) - 0x10000) % 0x400 = v := by
    omega
  rw [e1, e2]

/-- Helper: re-encoding the code points of the JavaScript string iterator
reconstructs the original unit list, for any list of genuine UTF-16 units
(values below 0x10000; lone surrogates allowed). -/
theorem encodeCps_decode : ∀ t : List Nat, (∀ u ∈ t, u < 0x10000) →
    encodeCps (decode t) = t := by
  intro t
  induction t using decode.induct with
  | case1 => intro _; rfl
  | case2 u =>
    intro h
    have hu : u < 0x10000 := h u (by simp)
    simp [decode, encodeCps, encodeCp, Nat.not_le.mpr hu]
  | case3 u v rest hpair ih =>
    intro h
    rw [Bool.and_eq_true] at hpair
    simp only [decode, if_pos (Bool.and_eq_true _ _ |>.mpr hpair)]
    simp only [encodeCps, List.map_cons, List.flatten_cons] at *
    rw [encodeCp_combine u v hpair.1 hpair.2, ih (fun x hx => h x (by simp [hx]))]
    rfl
  | case4 u v rest hpair ih =>
    intro h
    have hu : u < 0x10000 := h u (by simp)
    simp only [decode, if_neg hpair, encodeCps, List.map_cons, List.flatten_cons]
    have ih2 := ih (fun x hx => h x (List.mem_cons_of_mem u hx))
    simp only [encodeCps] at ih2
    rw [ih2]
    simp [encodeCp, Nat.not_le.mpr hu]

/-- Helper: the buffered flush loop of the reading-view annotator emits,
across all its segments, exactly the pending buffer followed by the
remaining chars — nothing added, removed, or reordered. -/
theorem flush_text (inH : Bool) (buf : List Nat) :
    ((if buf.isEmpty then ([] : List Seg) else [(inH, buf)]).map
      Prod.snd).flatten = buf := by
  by_cases hb : buf.isEmpty <;> simp_all [List.isEmpty_iff]

theorem segLoop_text (allowedSet : List Nat) :
    ∀ (cs : List Nat) (inH : Bool) (buf : List Nat),
    ((segLoop allowedSet cs inH buf).map Prod.snd).flatten = buf ++ cs := by
  intro cs
  induction cs with
  | nil =>
    intro inH buf
    rw [segLoop]
    simpa using flush_text inH buf
  | cons c cs ih =>
    intro inH buf
    rw [segLoop]
    cases hf : flagged allowedSet c <;> cases inH <;>
      simp [List.map_append, List.flatten_append, ih, flush_text] <;>
      by_cases hb : buf = [] <;> simp [hb]

theorem flush_homog (allowedSet : List Nat) (inH : Bool) (buf : List Nat)
    (hbuf : ∀ x ∈ buf, flagged allowedSet x = inH) :
    ∀ p ∈ (if buf.isEmpty then ([] : List Seg) else [(inH, buf)]),
      ∀ x ∈ p.2, flagged allowedSet x = p.1 := by
  intro p hp
  by_cases hb : buf.isEmpty = true
  · rw [if_pos hb] at hp
    exact absurd hp (List.not_mem_nil p)
  · rw [if_neg hb] at hp
    rcases List.mem_singleton.mp hp with rfl
    exact hbuf

/-- Helper: when every buffered char matches the current highlight state,
every emitted segment is homogeneous — a highlighted segment holds only
flagged chars and a plain segment only non-flagged ones. -/
theorem segLoop_homogeneous (allowedSet : List Nat) :
    ∀ (cs : List Nat) (inH : Bool) (buf : List Nat),
    (∀ x ∈ buf, flagged allowedSet x = inH) →
    ∀ p ∈ segLoop allowedSet cs inH buf,
      ∀ x ∈ p.2, flagged allowedSet x = p.1 := by
  intro cs
  induction cs with
  | nil =>
    intro inH buf hbuf
    rw [segLoop]
    exact flush_homog allowedSet inH buf hbuf
  | cons c cs ih =>
    intro inH buf hbuf
    rw [segLoop]
    cases hf : flagged allowedSet c
    · rw [if_neg (by simp)]
      cases inH
      · exact ih false (buf ++ [c]) (by
          intro x hx
          rcases List.mem_append.mp hx with h1 | h1
          · exact hbuf x h1
          · rcases List.mem_singleton.mp h1 with rfl
            exact hf)
      · rw [if_pos rfl]
        intro p hp
        rcases List.mem_append.mp hp with h1 | h1
        · exact flush_homog allowedSet true buf hbuf p h1
        · exact ih false [c] (by
            intro x hx
            rcases List.mem_singleton.mp hx with rfl
            exact hf) p h1
    · rw [if_pos rfl]
      cases inH
      · rw [if_neg (by simp)]
        intro p hp
        rcases List.mem_append.mp hp with h1 | h1
        · exact flush_homog allowedSet false buf hbuf p h1
        · exact ih true [c] (by
            intro x hx
            rcases List.mem_singleton.mp hx with rfl
            exact hf) p h1
      · exact ih true (buf ++ [c]) (by
          intro x hx
          rcases List.mem_append.mp hx with h1 | h1
          · exact hbuf x h1
          · rcases List.mem_singleton.mp h1 with rfl
            exact hf)

/-- Claim C1: the claimed coverage completeness of the run detector fails
on the code.  On the text "ÀÁa" (units `[0xC0, 0xC1, 0x61]`) with an empty
allowlist, `buildDecorations` emits the runs `[0,2)` and `[2,3)`: the
ASCII codepoint `a` (value 0x61 ≤ 0x7F) at offset 2 lies inside the
emitted run `[2,3)`, although the claim says an ASCII codepoint lies
inside no emitted run. -/
theorem c1_coverage_violated_at_input :
    buildDecorations true false [] [0xC0, 0xC1, 0x61] [(0, 3)] =
      [(0, 2), (2, 3)] ∧
    decode [0xC0, 0xC1, 0x61] = [0xC0, 0xC1, 0x61] ∧
    (0x61 ≤ 0x7F ∧
      ∃ r ∈ buildDecorations true false [] [0xC0, 0xC1, 0x61] [(0, 3)],
        r.1 ≤ 2 ∧ 2 < r.2) := by
  decide

/-- Claim C2: the claimed non-adjacency of emitted runs fails on the code.
On the text "日本語" (units `[0x65E5, 0x672C, 0x8A9E]`, all flagged) with
an empty allowlist, `buildDecorations` emits the three mutually adjacent
runs `[0,3)`, `[3,4)`, `[4,5)` instead of the single merged run `[0,3)`;
runs `(0,3)` and `(3,4)` touch, violating the invariant. -/
theorem c2_adjacency_violated_at_input :
    buildDecorations true false [] [0x65E5, 0x672C, 0x8A9E] [(0, 3)] =
      [(0, 3), (3, 4), (4, 5)] ∧
    ∃ r1 ∈ buildDecorations true false [] [0x65E5, 0x672C, 0x8A9E] [(0, 3)],
      ∃ r2 ∈ buildDecorations true false [] [0x65E5, 0x672C, 0x8A9E] [(0, 3)],
        r1 ≠ r2 ∧ r1.2 = r2.1 := by
  decide

/-- Claim C3: the claimed boundary safety fails on the code.  On the text
"À😀a😀" (units `[0xC0, 0xD83D, 0xDE00, 0x61, 0xD83D, 0xDE00]`) with the
allowlist containing the lone low surrogate 0xDE00, `buildDecorations`
emits the run `[3,5)` whose end offset 5 falls strictly inside the
surrogate pair occupying units 4-5: 5 is not among the codepoint
boundaries `[0, 1, 3, 4, 6]` of the text. -/
theorem c3_boundary_violated_at_input :
    buildDecorations true false [0xDE00]
        [0xC0, 0xD83D, 0xDE00, 0x61, 0xD83D, 0xDE00] [(0, 6)] =
      [(0, 3), (3, 5), (6, 8)] ∧
    cpBoundaries (decode [0xC0, 0xD83D, 0xDE00, 0x61, 0xD83D, 0xDE00]) 0 =
      [0, 1, 3, 4, 6] ∧
    ∃ r ∈ buildDecorations true false [0xDE00]
        [0xC0, 0xD83D, 0xDE00, 0x61, 0xD83D, 0xDE00] [(0, 6)],
      r.2 ∉ cpBoundaries (decode [0xC0, 0xD83D, 0xDE00, 0x61, 0xD83D, 0xDE00]) 0 := by
  decide

/-- Claim C4: round-trip of the static (reading view) annotator.  For
every text node content (a list of genuine UTF-16 code units) and every
allowlist, the concatenation in order of the text of all plain fragments
and highlighted sub-spans of the processed node reconstructs the original
text content exactly, and every highlighted sub-span holds only flagged
codepoints while every plain fragment holds only non-flagged ones. -/
theorem c4_reading_round_trip (allowedSet t : List Nat)
    (h : ∀ u ∈ t, u < 0x10000) :
    nodeText (processNode allowedSet t) = t ∧
    ∀ p ∈ segsOf (processNode allowedSet t),
      ∀ x ∈ p.2, flagged allowedSet x = p.1 := by
  unfold processNode
  by_cases hp : t.any (fun u => decide (0x7F < u)) = true
  · rw [if_pos hp]
    constructor
    · simp only [nodeText, readingSegments]
      rw [segLoop_text allowedSet (decode t) false []]
      simpa using encodeCps_decode t h
    · simp only [segsOf, readingSegments]
      exact segLoop_homogeneous allowedSet (decode t) false [] (by simp)
  · rw [if_neg hp]
    exact ⟨rfl, by simp [segsOf]⟩

/-- Witness for C4 at the concrete node content "hé😀"
(units `[0x68, 0xE9, 0xD83D, 0xDE00]`) with an empty allowlist. -/
theorem c4_reading_round_trip_witness :
    (∀ u ∈ [0x68, 0xE9, 0xD83D, 0xDE00], u < 0x10000) ∧
    (nodeText (processNode [] [0x68, 0xE9, 0xD83D, 0xDE00]) =
        [0x68, 0xE9, 0xD83D, 0xDE00] ∧
      ∀ p ∈ segsOf (processNode [] [0x68, 0xE9, 0xD83D, 0xDE00]),
        ∀ x ∈ p.2, flagged [] x = p.1) :=
  ⟨by decide, c4_reading_round_trip [] [0x68, 0xE9, 0xD83D, 0xDE00] (by decide)⟩

/-- Claim C5: the suppression policy.  A per-document metadata value is
disabling iff it is exactly boolean `false` or the string `"false"`, and
effective-enabled is the global flag AND NOT disabling; the function is
total by construction. -/
theorem c5_suppression_policy (g : Bool) (v : JsValue) :
    (isFileDisabledByFrontmatter v = true ↔
      v = JsValue.boolean false ∨ v = JsValue.string "false") ∧
    (effectiveEnabled g v = true ↔
      g = true ∧ isFileDisabledByFrontmatter v = false) := by
  constructor
  · cases v with
    | boolean b => cases b <;> simp [isFileDisabledByFrontmatter]
    | string s => simp [isFileDisabledByFrontmatter]
    | _ => simp [isFileDisabledByFrontmatter]
  · cases g <;> simp [effectiveEnabled]

/-- Claim C6: the allowlist set builder.  The result is duplicate-free; a
codepoint is a member iff it occurs among the codepoints of the raw
string (so a character outside the BMP is one member, never its two
surrogate halves) and is either not host-whitespace or equals U+00A0; the
empty string yields the empty set; and a surrogate pair in the raw string
enters as its single combined codepoint. -/
theorem c6_buildAllowedSet_spec (allowedChars : List Nat) (c : Nat) :
    (buildAllowedSet allowedChars).Nodup ∧
    (c ∈ buildAllowedSet allowedChars ↔
      c ∈ decode allowedChars ∧ (jsWhitespace c = false ∨ c = 0xA0)) ∧
    buildAllowedSet [] = [] ∧
    buildAllowedSet [0xD83D, 0xDE00] = [0x1F600] := by
  refine ⟨List.nodup_dedup _, ?_, rfl, by decide⟩
  rw [buildAllowedSet, List.mem_dedup, List.mem_filter]
  constructor
  · rintro ⟨h1, h2⟩
    refine ⟨h1, ?_⟩
    by_cases hw : jsWhitespace c = true
    · right
      by_contra hne
      rw [hw] at h2
      simp at h2
      exact hne (by simpa using h2)
    · left
      simpa using hw
  · rintro ⟨h1, h2⟩
    refine ⟨h1, ?_⟩
    rcases h2 with h2 | h2
    · simp [h2]
    · simp [h2]

/-- Claim C7: suppression fast path on both surfaces.  Whenever
effective-enabled is false, the decoration set of the edit-mode engine is
entirely empty and the reading-view post processor keeps every text node
unchanged, regardless of text content or allowlist. -/
theorem c7_suppression_fast_path (enabled : Bool) (v : JsValue)
    (allowedSet allowedChars doc : List Nat) (ranges : List (Nat × Nat))
    (nodes : List (List Nat))
    (h : effectiveEnabled enabled v = false) :
    buildDecorations enabled (isFileDisabledByFrontmatter v) allowedSet
        doc ranges = [] ∧
    postProcess enabled v allowedChars nodes = nodes.map NodeOut.keep := by
  rw [effectiveEnabled, Bool.and_eq_false_iff] at h
  rcases h with h | h
  · rw [h]
    exact ⟨by simp [buildDecorations], by simp [postProcess]⟩
  · have hd : isFileDisabledByFrontmatter v = true := by
      cases hdv : isFileDisabledByFrontmatter v
      · rw [hdv] at h; simp at h
      · rfl
    rw [hd]
    refine ⟨by simp [buildDecorations], ?_⟩
    rw [postProcess]
    cases enabled <;> simp [hd]

/-- Witness for C7: global flag off, absent frontmatter value, one
non-ASCII node and one visible range. -/
theorem c7_suppression_fast_path_witness :
    effectiveEnabled false JsValue.undef = false ∧
    (buildDecorations false (isFileDisabledByFrontmatter JsValue.undef) []
        [0xC0] [(0, 1)] = [] ∧
      postProcess false JsValue.undef [] [[0xC0]] =
        [[0xC0]].map NodeOut.keep) :=
  ⟨rfl, c7_suppression_fast_path false JsValue.undef [] [] [0xC0] [(0, 1)]
    [[0xC0]] rfl⟩

/-- Claim C8: the two rendering surfaces disagree.  On the text "ÀÁ"
(units `[0xC0, 0xC1]`) with an empty allowlist, the edit-mode scanner
applied to the single range covering the text emits `[0,2)` and `[2,3)`,
while the reading-view annotator produces the single highlighted sub-span
`[0,2)` — the run decompositions are not identical. -/
theorem c8_surfaces_differ_at_input :
    buildDecorations true false [] [0xC0, 0xC1] [(0, 2)] = [(0, 2), (2, 3)] ∧
    segRuns (readingSegments [] (decode [0xC0, 0xC1])) 0 = [(0, 2)] ∧
    buildDecorations true false [] [0xC0, 0xC1] [(0, 2)] ≠
      segRuns (readingSegments [] (decode [0xC0, 0xC1])) 0 := by
  decide

/-- Claim C9: determinism of the scan.  The run detector is a pure
function of the text and the allowlist: two invocations on identical
inputs yield identical outputs, with no dependence on any other state. -/
theorem c9_scan_deterministic (t1 t2 allow1 allow2 : List Nat) (a : Nat)
    (ht : t1 = t2) (ha : allow1 = allow2) :
    scanRange allow1 t1 a = scanRange allow2 t2 a := by
  rw [ht, ha]

/-- Witness for C9 at the concrete input "Àa" with an empty allowlist. -/
theorem c9_scan_deterministic_witness :
    scanRange [] [0xC0, 0x61] 0 = scanRange [] [0xC0, 0x61] 0 :=
  c9_scan_deterministic [0xC0, 0x61] [0xC0, 0x61] [] [] 0 rfl rfl

/-- Claim C10: the claimed run coverage of lone surrogates fails on the
code.  On the text `[0xC0, 0xC1, 0x61, 0x61, 0xDC00]` (À, Á, a, a
followed by a lone low surrogate) with an empty allowlist, the scanner
does terminate and the lone surrogate is decoded as the single flagged
codepoint 0xDC00, but the emitted runs are `[0,2)`, `[2,3)`, `[5,6)`:
the lone surrogate's actual unit, offset 4, lies inside none of them, so
it does not occupy one UTF-16 unit of a run as claimed. -/
theorem c10_lone_surrogate_uncovered_at_input :
    buildDecorations true false [] [0xC0, 0xC1, 0x61, 0x61, 0xDC00] [(0, 5)] =
      [(0, 2), (2, 3), (5, 6)] ∧
    decode [0xC0, 0xC1, 0x61, 0x61, 0xDC00] =
      [0xC0, 0xC1, 0x61, 0x61, 0xDC00] ∧
    flagged [] 0xDC00 = true ∧
    cpBoundaries (decode [0xC0, 0xC1, 0x61, 0x61, 0xDC00]) 0 =
      [0, 1, 2, 3, 4, 5] ∧
    ∀ r ∈ buildDecorations true false [] [0xC0, 0xC1, 0x61, 0x61, 0xDC00]
        [(0, 5)], ¬(r.1 ≤ 4 ∧ 4 < r.2) := by
  decide

end HNA
